import Mathlib

/-!
Verification of the dining-philosophers simulation (`src/philo.c`, `src/free.c`).

The embedding is shallow and thread-local.  An actor task is modelled as a
state-passing function over an oracle environment: the environment answers
the task's reads of the shared termination flag (`is_simulation_finished`)
and of the wall clock (`get_current_time_ms`), which in the C program are
performed concurrently with the monitor.  Every externally visible action of
a task (mutex lock/unlock, status emission, `usleep`) is recorded in an
event trace, so ordering properties of the C code become properties of the
trace.  Times are integers in milliseconds; `usleep` arguments are recorded
verbatim, i.e. in microseconds, exactly as passed to the C call.

The monitor side (`free.c`) is sequential code over the shared simulation
state and is embedded as pure functions from state to state.
-/

/-- One externally visible action of a task.  `lock i` / `unlock i` are
`pthread_mutex_lock/unlock` on `fork_mutexes[i]`; `lockData` / `unlockData`
are on `data_mutex`; `status id msg` is a Reporter emission for philosopher
`id`; `sleep us` is `usleep(us)` (microseconds, as passed to `usleep`);
`checkFlag b` records a read of the shared termination flag that returned
`b`; the remaining constructors are the cleanup actions of `free.c`. -/
inductive Event where
  | lock (i : Nat)
  | unlock (i : Nat)
  | status (id : Nat) (msg : String)
  | lockData
  | unlockData
  | sleep (us : Int)
  | checkFlag (b : Bool)
  | joinThread (i : Nat)
  | destroyFork (i : Nat)
  | destroyPrint
  | destroyData
  deriving DecidableEq, Repr

/-- The mutable per-philosopher record (`t_philosopher`): stable identity and
fork indices, plus the meal bookkeeping written by the owning task. -/
structure Philo where
  id : Nat
  left_fork_index : Nat
  right_fork_index : Nat
  last_meal_time : Int
  meals_eaten : Int
  deriving DecidableEq, Repr, Inhabited

/-- The immutable configuration fields of `t_simulation` read by the actor
tasks. -/
structure SimCfg where
  philosopher_count : Nat
  time_to_die : Int
  time_to_eat : Int
  time_to_sleep : Int
  deriving DecidableEq, Repr

/-- Oracle environment for one actor task: `flag n` is the value returned by
its `n`-th read of the shared termination flag, `time n` the value returned
by its `n`-th call of `get_current_time_ms`.  Both are written concurrently
by other tasks, hence modelled as oracles. -/
structure Env where
  flag : Nat → Bool
  time : Nat → Int

/-- Thread-local state of one actor task: the next oracle indices, the
task's own philosopher record, and the trace of events performed so far. -/
structure St where
  fi : Nat
  ti : Nat
  philo : Philo
  events : List Event
  deriving Repr

/-- Modelled from the spec: `is_simulation_finished` (declared in the
missing header, body not under `src/`) reads the shared `simulation_ended`
flag under the data mutex and returns it.  Here: consume one flag
observation from the oracle and record it in the trace. -/
def is_simulation_finished (env : Env) (st : St) : Bool × St :=
  let b := env.flag st.fi
  (b, { st with fi := st.fi + 1, events := st.events ++ [Event.checkFlag b] })

/-- Modelled from the spec: the TimeSource `get_current_time_ms` (body not
under `src/`) returns the monotonic current time in milliseconds.  Here:
consume one time observation from the oracle. -/
def get_current_time_ms (env : Env) (st : St) : Int × St :=
  (env.time st.ti, { st with ti := st.ti + 1 })

/-- Modelled from the spec: the Reporter emission
`print_timestamp_and_philo_status_msg(philo, msg, NOT_DEAD)` (body not under
`src/`) prints a timestamped status line for the actor.  Here: record the
emission in the trace. -/
def emitStatus (msg : String) (st : St) : St :=
  { st with events := st.events ++ [Event.status st.philo.id msg] }

/-- `pthread_mutex_lock(&sim->fork_mutexes[i])`, recorded in the trace. -/
def lockFork (i : Nat) (st : St) : St :=
  { st with events := st.events ++ [Event.lock i] }

/-- `pthread_mutex_unlock(&sim->fork_mutexes[i])`, recorded in the trace. -/
def unlockFork (i : Nat) (st : St) : St :=
  { st with events := st.events ++ [Event.unlock i] }

/-- `pthread_mutex_lock(&sim->data_mutex)`, recorded in the trace. -/
def lockData (st : St) : St :=
  { st with events := st.events ++ [Event.lockData] }

/-- `pthread_mutex_unlock(&sim->data_mutex)`, recorded in the trace. -/
def unlockData (st : St) : St :=
  { st with events := st.events ++ [Event.unlockData] }

/-- `usleep(us)`, recorded in the trace (argument in microseconds, exactly
as passed to the C call). -/
def usleepEv (us : Int) (st : St) : St :=
  { st with events := st.events ++ [Event.sleep us] }

/-- `src/philo.c`, `acquire_forks`: the literal three-branch structure of
the source, including the duplicated condition `philo->id % 2 == 1` on the
middle branch. -/
def acquire_forks (st : St) : St :=
  if st.philo.id % 2 = 1 then
    { st with events := st.events ++
        [Event.lock st.philo.left_fork_index,
         Event.status st.philo.id "has taken a left fork",
         Event.lock st.philo.right_fork_index,
         Event.status st.philo.id "has taken a right fork"] }
  else if st.philo.id % 2 = 1 then
    { st with events := st.events ++
        [Event.lock st.philo.right_fork_index,
         Event.status st.philo.id "has taken a right fork",
         Event.lock st.philo.left_fork_index,
         Event.status st.philo.id "has taken a left fork"] }
  else
    { st with events := st.events ++
        [Event.lock st.philo.right_fork_index,
         Event.status st.philo.id "has taken a right fork",
         Event.lock st.philo.left_fork_index,
         Event.status st.philo.id "has taken a left fork"] }

/-- The spec's intended two-case fork-acquisition policy, written directly
from the spec's words (policy table: odd takes left then right, even takes
right then left), to be compared with the source's `acquire_forks`. -/
def acquire_forks_intended (st : St) : St :=
  if st.philo.id % 2 = 1 then
    { st with events := st.events ++
        [Event.lock st.philo.left_fork_index,
         Event.status st.philo.id "has taken a left fork",
         Event.lock st.philo.right_fork_index,
         Event.status st.philo.id "has taken a right fork"] }
  else
    { st with events := st.events ++
        [Event.lock st.philo.right_fork_index,
         Event.status st.philo.id "has taken a right fork",
         Event.lock st.philo.left_fork_index,
         Event.status st.philo.id "has taken a left fork"] }

/-- The fork indices a philosopher locks, in order, according to the spec's
parity policy. -/
def intended_fork_order (p : Philo) : List Nat :=
  if p.id % 2 = 1 then [p.left_fork_index, p.right_fork_index]
  else [p.right_fork_index, p.left_fork_index]

/-- The subsequence of fork-lock acquisitions in a trace. -/
def forkLocks (evs : List Event) : List Nat :=
  evs.filterMap fun e =>
    match e with
    | Event.lock i => some i
    | _ => none

/-- `src/philo.c`, `release_forks`: unlock left fork, then right fork. -/
def release_forks (st : St) : St :=
  unlockFork st.philo.right_fork_index (unlockFork st.philo.left_fork_index st)

/-- The `usleep` increment chosen by `philo_spend_time` from the remaining
time (in ms): the literal if-chain of the source, result in microseconds. -/
def sleepIncrement (remaining : Int) : Int :=
  if remaining > 10 then 1000
  else if remaining > 1 then 100
  else 10

/-- The `while` loop of `src/philo.c`, `philo_spend_time`: while the flag
read is false, read the clock, exit if `duration_ms` has elapsed since
`start`, otherwise `usleep` by the adaptive increment and repeat.  `fuel`
bounds the number of iterations (the oracle is infinite, the C loop is
stopped by the environment). -/
def spendLoop (env : Env) (fuel : Nat) (start duration : Int) (st : St) : St :=
  match fuel with
  | 0 => st
  | fuel + 1 =>
    let r := is_simulation_finished env st
    if r.1 then r.2
    else
      let t := get_current_time_ms env r.2
      if t.1 - start ≥ duration then t.2
      else spendLoop env fuel start duration
        (usleepEv (sleepIncrement (duration - (t.1 - start))) t.2)

/-- `src/philo.c`, `philo_spend_time`: read the start time, then run the
responsive-wait loop. -/
def philo_spend_time (env : Env) (fuel : Nat) (duration : Int) (st : St) : St :=
  let t := get_current_time_ms env st
  spendLoop env fuel t.1 duration t.2

/-- The write `philo->last_meal_time = get_current_time_ms();` of
`philosopher_eat` (performed under the data mutex). -/
def set_last_meal_time (t : Int) (st : St) : St :=
  { st with philo := { st.philo with last_meal_time := t } }

/-- The write `philo->meals_eaten++;` of `philosopher_eat` (performed under
the data mutex). -/
def increment_meals_eaten (st : St) : St :=
  { st with philo := { st.philo with meals_eaten := st.philo.meals_eaten + 1 } }

/-- `src/philo.c`, `philosopher_eat`.  Degenerate case
(`philosopher_count == 1`): lock the single (left) fork, emit
"has taken a fork", responsively wait `time_to_die + 1`, unlock, return.
General case: `acquire_forks`, emit "is eating", under the data mutex set
`last_meal_time` to now and increment `meals_eaten`, responsively wait
`time_to_eat`, `release_forks`. -/
def philosopher_eat (env : Env) (fuel : Nat) (cfg : SimCfg) (st : St) : St :=
  if cfg.philosopher_count = 1 then
    let st1 := lockFork st.philo.left_fork_index st
    let st2 := emitStatus "has taken a fork" st1
    let st3 := philo_spend_time env fuel (cfg.time_to_die + 1) st2
    unlockFork st.philo.left_fork_index st3
  else
    let st1 := acquire_forks st
    let st2 := emitStatus "is eating" st1
    let st3 := lockData st2
    let t := get_current_time_ms env st3
    let st4 := set_last_meal_time t.1 t.2
    let st5 := increment_meals_eaten st4
    let st6 := unlockData st5
    let st7 := philo_spend_time env fuel cfg.time_to_eat st6
    release_forks st7

/-- The `while` loop of `src/philo.c`, `philosopher_lifecycle`: check the
flag; eat; check the flag (break if set); emit "is sleeping" and wait; check
the flag (break if set); emit "is thinking", and for an odd table
`usleep(100)`; repeat.  `cycles` bounds the number of loop iterations,
`sfuel` the iterations of each inner responsive wait. -/
def lifecycleLoop (env : Env) (cycles sfuel : Nat) (cfg : SimCfg) (st : St) : St :=
  match cycles with
  | 0 => st
  | cycles + 1 =>
    let r := is_simulation_finished env st
    if r.1 then r.2
    else
      let st1 := philosopher_eat env sfuel cfg r.2
      let r2 := is_simulation_finished env st1
      if r2.1 then r2.2
      else
        let st2 := emitStatus "is sleeping" r2.2
        let st3 := philo_spend_time env sfuel cfg.time_to_sleep st2
        let r3 := is_simulation_finished env st3
        if r3.1 then r3.2
        else
          let st4 := emitStatus "is thinking" r3.2
          let st5 := if cfg.philosopher_count % 2 = 1 then usleepEv 100 st4 else st4
          lifecycleLoop env cycles sfuel cfg st5

/-- `src/philo.c`, `philosopher_lifecycle`: an even-id philosopher first
does `usleep(time_to_eat / 2)` (the raw ms-valued field passed to the
microsecond-sleep `usleep`), an odd-id one starts at once; then the
eat/sleep/think loop runs. -/
def philosopher_lifecycle (env : Env) (cycles sfuel : Nat) (cfg : SimCfg) (st : St) : St :=
  let st0 := if st.philo.id % 2 = 0 then usleepEv (cfg.time_to_eat / 2) st else st
  lifecycleLoop env cycles sfuel cfg st0

/-! ### The monitor (`src/free.c`) -/

/-- The shared simulation state as seen by the monitor (`t_simulation`):
configuration, the philosopher records, and the termination flag. -/
structure MSim where
  philosopher_count : Nat
  time_to_die : Int
  required_meals : Int
  philosophers : List Philo
  simulation_ended : Bool
  deriving DecidableEq, Repr

/-- The scan loop of `src/free.c`, `check_for_death`: first philosopher
(lowest index) whose `now - last_meal_time` reaches `time_to_die`, as a
0-based index. -/
def check_for_death_go (ttd now : Int) : List Philo → Option Nat
  | [] => none
  | p :: rest =>
    if now - p.last_meal_time ≥ ttd then some 0
    else (check_for_death_go ttd now rest).map (· + 1)

/-- `src/free.c`, `check_for_death`: scan the records in index order with
`current_time = now`; on the first starving record set `simulation_ended`
and return its 1-based position; otherwise return `FALSE` (0) leaving the
state untouched. -/
def check_for_death (sim : MSim) (now : Int) : MSim × Int :=
  match check_for_death_go sim.time_to_die now sim.philosophers with
  | some i => ({ sim with simulation_ended := true }, (i : Int) + 1)
  | none => (sim, 0)

/-- The counting loop of `src/free.c`, `check_all_philosophers_satisfied`:
number of records with `meals_eaten ≥ required_meals`. -/
def count_satisfied (req : Int) : List Philo → Int
  | [] => 0
  | p :: rest =>
    (if p.meals_eaten ≥ req then 1 else 0) + count_satisfied req rest

/-- `src/free.c`, `check_all_philosophers_satisfied`: `FALSE` at once when
`required_meals == -1`; otherwise count the satisfied records and, when the
count reaches `philosopher_count`, set `simulation_ended` and return
`TRUE`. -/
def check_all_philosophers_satisfied (sim : MSim) : MSim × Bool :=
  if sim.required_meals = -1 then (sim, false)
  else
    if count_satisfied sim.required_meals sim.philosophers ≥
        (sim.philosopher_count : Int) then
      ({ sim with simulation_ended := true }, true)
    else (sim, false)

/-- `src/free.c`, `evaluate_simulation_status`: under the data mutex run the
death check; on a death, unlock and emit "died" for
`philosophers[death_id - 1]` and return `TRUE`; otherwise run the
satisfaction check, unlock, and return its verdict.  The third component is
the trace of monitor events of this call. -/
def evaluate_simulation_status (sim : MSim) (now : Int) : MSim × Bool × List Event :=
  let r := check_for_death sim now
  if r.2 > 0 then
    (r.1, true,
      [Event.lockData, Event.unlockData,
       Event.status ((r.1.philosophers.getD (r.2.toNat - 1) default).id) "died"])
  else
    let s := check_all_philosophers_satisfied r.1
    (s.1, s.2, [Event.lockData, Event.unlockData])

/-- The interval computation of `src/free.c`,
`monitor_simulation_and_cleanup`: `time_to_die / 10`, clamped to
`[500, 5000]` (used as microseconds). -/
def clampInterval (ttd : Int) : Int :=
  let c0 := ttd / 10
  let c1 := if c0 < 500 then 500 else c0
  if c1 > 5000 then 5000 else c1

/-- One observation of the concurrently mutated shared state at the start
of a monitor polling iteration: the philosopher records as the actors have
left them, and the clock value the monitor reads. -/
structure MObs where
  philos : List Philo
  now : Int

/-- The polling loop of `src/free.c`, `monitor_simulation_and_cleanup`:
each iteration sees the current records (from the observation), runs
`evaluate_simulation_status`, stops when it returns `TRUE`, otherwise
`usleep(interval)` and repeats.  Returns the final state and the monitor's
event trace. -/
def monitorLoop (interval : Int) : List MObs → MSim → MSim × List Event
  | [], sim => (sim, [])
  | o :: rest, sim =>
    let sim0 := { sim with philosophers := o.philos }
    let r := evaluate_simulation_status sim0 o.now
    if r.2.1 then (r.1, r.2.2)
    else
      let rec' := monitorLoop interval rest r.1
      (rec'.1, r.2.2 ++ Event.sleep interval :: rec'.2)

/-- `src/free.c`, `cleanup_simulation_resources`: join every philosopher
thread, destroy every fork mutex, destroy the print and data mutexes (the
two `free` calls leave no trace event). -/
def cleanup_simulation_resources (count : Nat) : List Event :=
  ((List.range count).map Event.joinThread) ++
    ((List.range count).map Event.destroyFork) ++
    [Event.destroyPrint, Event.destroyData]

/-- `src/free.c`, `monitor_simulation_and_cleanup`: compute the clamped
polling interval, run the polling loop until `evaluate_simulation_status`
returns `TRUE` (or the observations run out), then clean up. -/
def monitor_simulation_and_cleanup (obs : List MObs) (sim : MSim) : MSim × List Event :=
  let interval := clampInterval sim.time_to_die
  let r := monitorLoop interval obs sim
  (r.1, r.2 ++ cleanup_simulation_resources sim.philosopher_count)

/-- Does an event touch a fork mutex (lock, unlock or destroy)? -/
def isForkMutexEvent : Event → Bool
  | Event.lock _ => true
  | Event.unlock _ => true
  | Event.destroyFork _ => true
  | _ => false

/-- Is an event the start-of-phase emission of an eat, sleep or think
phase? -/
def isPhaseStatus : Event → Bool
  | Event.status _ m =>
    m == "is eating" || m == "is sleeping" || m == "is thinking"
  | _ => false

/-- Does the trace contain a read of the termination flag that returned
`true`? -/
def hasTrueCheck : List Event → Bool
  | [] => false
  | Event.checkFlag true :: _ => true
  | _ :: rest => hasTrueCheck rest

/-- No eat/sleep/think phase emission occurs anywhere after a flag read
that returned `true`. -/
def noPhaseAfterTrue : List Event → Bool
  | [] => true
  | Event.checkFlag true :: rest =>
    rest.all (fun e => !isPhaseStatus e) && noPhaseAfterTrue rest
  | _ :: rest => noPhaseAfterTrue rest

/-- The termination flag is latched (monotone): once a read returns `true`,
every later read does too.  This is what C6 establishes about the only
writers of the flag; for a single actor's oracle it says its successive
flag observations can only go false → true. -/
def flagMono (env : Env) : Prop :=
  ∀ i j : Nat, i ≤ j → env.flag i = true → env.flag j = true

/-- Invariant carried through an actor's execution: the trace so far has no
phase emission after a positive flag check, and if a positive check has
already happened then every flag read still to come returns `true`. -/
def safeSt (env : Env) (st : St) : Prop :=
  noPhaseAfterTrue st.events = true ∧
    (hasTrueCheck st.events = true → ∀ k, st.fi ≤ k → env.flag k = true)

/-- The events appended by `n` full iterations of the responsive-wait loop
whose first time read is at oracle index `ti`: each full iteration records
the flag read (`false`) and the adaptive sleep chosen from the remaining
time. -/
def spendTrace (env : Env) (start dur : Int) (ti : Nat) : Nat → List Event
  | 0 => []
  | n + 1 =>
    Event.checkFlag false ::
      Event.sleep (sleepIncrement (dur - (env.time ti - start))) ::
        spendTrace env start dur (ti + 1) n

/-! ### Concrete fixtures used to instantiate the theorems -/

/-- A concrete odd-id philosopher record. -/
def wPhilo : Philo := ⟨1, 0, 1, 0, 0⟩

/-- A concrete even-id philosopher record. -/
def wPhilo2 : Philo := ⟨2, 1, 0, 0, 0⟩

/-- An environment whose termination flag is already set. -/
def wEnvTrue : Env := ⟨fun _ => true, fun _ => 0⟩

/-- An environment whose termination flag turns true at the third read and
whose clock advances by 1 ms per read. -/
def wEnvLate : Env := ⟨fun i => decide (3 ≤ i), fun i => (i : Int)⟩

/-- A concrete 5-philosopher configuration. -/
def wCfg : SimCfg := ⟨5, 100, 200, 80⟩

/-- A concrete single-philosopher configuration. -/
def wCfg1 : SimCfg := ⟨1, 30, 20, 10⟩

/-- Initial thread-local state of `wPhilo`. -/
def wStA : St := ⟨0, 0, wPhilo, []⟩

/-- Initial thread-local state of `wPhilo2`. -/
def wStB : St := ⟨0, 0, wPhilo2, []⟩

/-- A monitor state in which both philosophers are starving. -/
def wSimDeath : MSim := ⟨2, 10, -1, [⟨1, 0, 1, -20, 0⟩, ⟨2, 1, 0, -20, 0⟩], false⟩

/-- A monitor state in which both philosophers have eaten enough. -/
def wSimSat : MSim := ⟨2, 100, 3, [⟨1, 0, 1, 0, 3⟩, ⟨2, 1, 0, 0, 5⟩], false⟩

/-- A monitor state whose termination flag is already set. -/
def wSimEnded : MSim := ⟨1, 50, -1, [⟨1, 0, 0, 0, 0⟩], true⟩

/-- A single-philosopher monitor state with a meal requirement. -/
def wSimOne : MSim := ⟨1, 50, 2, [⟨1, 0, 0, 0, 0⟩], false⟩

/-- One concrete monitor observation list. -/
def wObs : List MObs := [⟨[⟨1, 0, 1, 0, 0⟩], 1⟩, ⟨[⟨1, 0, 1, 0, 0⟩], 60⟩]

/-! ### General trace lemmas -/

theorem forkLocks_append (a b : List Event) :
    forkLocks (a ++ b) = forkLocks a ++ forkLocks b := by
  simp [forkLocks, List.filterMap_append]

/-- C1: In the general case, `acquire_forks` locks the forks in the
parity-keyed order — an odd-id philosopher locks its left fork then its
right fork, an even-id philosopher its right fork then its left fork.  The
middle branch of the source repeats the condition of the first branch, so
it is unreachable, and the surviving two-case behaviour coincides with the
spec's intended policy (`acquire_forks_intended`), including the emitted
"has taken a ... fork" events. -/
theorem acquire_forks_parity_order (st : St) :
    acquire_forks st = acquire_forks_intended st ∧
    forkLocks (acquire_forks st).events
      = forkLocks st.events ++ intended_fork_order st.philo := by
  by_cases h : st.philo.id % 2 = 1 <;>
    simp [acquire_forks, acquire_forks_intended, intended_fork_order,
      forkLocks, h, List.filterMap_append, List.filterMap]

/-! ### Death-scan lemmas (`check_for_death`) -/

theorem check_for_death_go_eq_none (ttd now : Int) (ps : List Philo) :
    check_for_death_go ttd now ps = none ↔
      ∀ p ∈ ps, now - p.last_meal_time < ttd := by
  induction ps with
  | nil => simp [check_for_death_go]
  | cons p rest ih =>
    by_cases h : now - p.last_meal_time ≥ ttd
    · simp only [check_for_death_go, if_pos h]
      constructor
      · intro hc; exact absurd hc (Option.some_ne_none 0)
      · intro hall
        exact absurd (hall p (List.mem_cons_self p rest)) (by omega)
    · simp only [check_for_death_go, if_neg h, Option.map_eq_none', ih]
      constructor
      · intro hall q hq
        rcases List.mem_cons.mp hq with rfl | hq
        · omega
        · exact hall q hq
      · intro hall q hq
        exact hall q (List.mem_cons_of_mem p hq)

theorem check_for_death_go_some_of (ttd now : Int) (ps : List Philo)
    (i : Nat) (pi : Philo) (hpi : ps[i]? = some pi)
    (hst : now - pi.last_meal_time ≥ ttd)
    (hmin : ∀ j pj, j < i → ps[j]? = some pj →
      now - pj.last_meal_time < ttd) :
    check_for_death_go ttd now ps = some i := by
  induction ps generalizing i with
  | nil => simp at hpi
  | cons p rest ih =>
    cases i with
    | zero =>
      simp only [List.getElem?_cons_zero, Option.some.injEq] at hpi
      subst hpi
      simp only [check_for_death_go, if_pos hst]
    | succ n =>
      have hp0 : now - p.last_meal_time < ttd :=
        hmin 0 p (Nat.succ_pos n) (by simp)
      simp only [List.getElem?_cons_succ] at hpi
      have hrest : check_for_death_go ttd now rest = some n :=
        ih n hpi (fun j pj hj hpj =>
          hmin (j + 1) pj (by omega) (by simpa using hpj))
      simp only [check_for_death_go, if_neg (by omega : ¬ now - p.last_meal_time ≥ ttd),
        hrest, Option.map_some']

/-- C2: When the monitor's death check runs, it scans the records in
increasing index (= id) order; if some record has
`now - last_meal_time ≥ time_to_die` it sets `simulation_ended` and returns
the 1-based position of the first (lowest-id) such record, and the single
"died" event the monitor then emits names exactly that actor; if no record
satisfies the condition, the state (in particular the termination flag) is
returned unchanged and the monitor's event list contains no "died"
emission.  The id hypothesis is the spec's data-model well-formedness
(`id = index + 1`), established by the initialization code outside
`src/`. -/
theorem check_for_death_reports_first_starving (sim : MSim) (now : Int)
    (hids : ∀ (i : Nat) (pi : Philo),
      sim.philosophers[i]? = some pi → pi.id = i + 1) :
    ((∀ p ∈ sim.philosophers, now - p.last_meal_time < sim.time_to_die) →
      check_for_death sim now = (sim, 0) ∧
      (evaluate_simulation_status sim now).2.2 =
        [Event.lockData, Event.unlockData]) ∧
    (∀ (i : Nat) (pi : Philo), sim.philosophers[i]? = some pi →
      now - pi.last_meal_time ≥ sim.time_to_die →
      (∀ j pj, j < i → sim.philosophers[j]? = some pj →
        now - pj.last_meal_time < sim.time_to_die) →
      check_for_death sim now =
        ({ sim with simulation_ended := true }, (i : Int) + 1) ∧
      (evaluate_simulation_status sim now).2.1 = true ∧
      (evaluate_simulation_status sim now).2.2 =
        [Event.lockData, Event.unlockData, Event.status (i + 1) "died"]) := by
  constructor
  · intro hall
    have hnone : check_for_death_go sim.time_to_die now sim.philosophers = none :=
      (check_for_death_go_eq_none _ _ _).mpr hall
    have hcfd : check_for_death sim now = (sim, 0) := by
      simp [check_for_death, hnone]
    refine ⟨hcfd, ?_⟩
    simp [evaluate_simulation_status, hcfd]
  · intro i pi hpi hst hmin
    have hsome : check_for_death_go sim.time_to_die now sim.philosophers = some i :=
      check_for_death_go_some_of _ _ _ i pi hpi hst hmin
    have hcfd : check_for_death sim now =
        ({ sim with simulation_ended := true }, (i : Int) + 1) := by
      simp [check_for_death, hsome]
    refine ⟨hcfd, ?_, ?_⟩
    · simp [evaluate_simulation_status, hcfd]
    · have htn : ((i : Int) + 1).toNat - 1 = i := by omega
      simp [evaluate_simulation_status, hcfd, htn, hpi, hids i pi hpi]

/-- Witness for C2: in `wSimDeath` both philosophers have starved at time
0; the death check sets the flag, reports position 1 (the lowest id), and
the monitor emits a single "died" event naming philosopher 1. -/
theorem check_for_death_reports_first_starving_witness :
    (check_for_death wSimDeath 0).1.simulation_ended = true ∧
    (check_for_death wSimDeath 0).2 = 1 ∧
    (evaluate_simulation_status wSimDeath 0).2.2 =
      [Event.lockData, Event.unlockData, Event.status 1 "died"] := by
  have h := check_for_death_reports_first_starving wSimDeath 0 (by
    intro i pi hpi
    rcases i with _ | _ | i
    · simp only [wSimDeath, List.getElem?_cons_zero, Option.some.injEq] at hpi
      subst hpi; rfl
    · simp only [wSimDeath, List.getElem?_cons_succ, List.getElem?_cons_zero,
        Option.some.injEq] at hpi
      subst hpi; rfl
    · simp [wSimDeath] at hpi)
  obtain ⟨hc, hr, hev⟩ := h.2 0 ⟨1, 0, 1, -20, 0⟩ (by decide) (by decide)
    (fun j pj hj _ => absurd hj (Nat.not_lt_zero j))
  refine ⟨by rw [hc], by rw [hc]; norm_num, by simpa using hev⟩

/-! ### Satisfaction-check lemmas -/

theorem count_satisfied_le_length (req : Int) (ps : List Philo) :
    count_satisfied req ps ≤ (ps.length : Int) := by
  induction ps with
  | nil => simp [count_satisfied]
  | cons p rest ih =>
    simp only [count_satisfied, List.length_cons]
    by_cases h : p.meals_eaten ≥ req <;> simp only [h, if_true, if_false] <;>
      push_cast <;> omega

theorem count_satisfied_ge_length_iff (req : Int) (ps : List Philo) :
    count_satisfied req ps ≥ (ps.length : Int) ↔
      ∀ p ∈ ps, p.meals_eaten ≥ req := by
  induction ps with
  | nil => simp [count_satisfied]
  | cons p rest ih =>
    have hb := count_satisfied_le_length req rest
    by_cases h : p.meals_eaten ≥ req
    · simp only [count_satisfied, if_pos h, List.length_cons]
      constructor
      · intro hge q hq
        rcases List.mem_cons.mp hq with rfl | hq
        · exact h
        · exact ih.mp (by push_cast at hge ⊢; omega) q hq
      · intro hall
        have hr := ih.mpr (fun q hq => hall q (List.mem_cons_of_mem p hq))
        push_cast
        omega
    · simp only [count_satisfied, if_neg h, List.length_cons]
      constructor
      · intro hge
        exfalso
        push_cast at hge
        omega
      · intro hall
        exact absurd (hall p (List.mem_cons_self p rest)) h

/-- C3: With `required_meals` unset (`-1`) the satisfaction check returns
`FALSE` and changes nothing, so it never ends the simulation.  With
`required_meals` set, it returns `TRUE` and sets the termination flag
exactly when every one of the `philosopher_count` records has
`meals_eaten ≥ required_meals` (otherwise it changes nothing); and the
monitor runs it, returning its verdict with no "died" emission, exactly
when the death check returned no starving actor. -/
theorem satisfaction_check_spec (sim : MSim) (now : Int)
    (hlen : sim.philosophers.length = sim.philosopher_count) :
    (sim.required_meals = -1 →
      check_all_philosophers_satisfied sim = (sim, false)) ∧
    (sim.required_meals ≠ -1 →
      (((check_all_philosophers_satisfied sim).2 = true ↔
        ∀ p ∈ sim.philosophers, p.meals_eaten ≥ sim.required_meals) ∧
      ((check_all_philosophers_satisfied sim).2 = true →
        (check_all_philosophers_satisfied sim).1 =
          { sim with simulation_ended := true }) ∧
      ((check_all_philosophers_satisfied sim).2 = false →
        check_all_philosophers_satisfied sim = (sim, false)))) ∧
    ((check_for_death sim now).2 = 0 →
      evaluate_simulation_status sim now =
        ((check_all_philosophers_satisfied sim).1,
         (check_all_philosophers_satisfied sim).2,
         [Event.lockData, Event.unlockData])) := by
  refine ⟨?_, ?_, ?_⟩
  · intro h
    simp [check_all_philosophers_satisfied, h]
  · intro h
    have hiff : count_satisfied sim.required_meals sim.philosophers ≥
          (sim.philosopher_count : Int) ↔
        ∀ p ∈ sim.philosophers, p.meals_eaten ≥ sim.required_meals := by
      rw [← hlen]
      exact count_satisfied_ge_length_iff sim.required_meals sim.philosophers
    by_cases hc : count_satisfied sim.required_meals sim.philosophers ≥
        (sim.philosopher_count : Int)
    · refine ⟨?_, ?_, ?_⟩
      · simp only [check_all_philosophers_satisfied, if_neg h, if_pos hc]
        simpa using hiff.mp hc
      · intro _
        simp [check_all_philosophers_satisfied, h, hc]
      · intro hfalse
        exfalso
        simp [check_all_philosophers_satisfied, h, hc] at hfalse
    · refine ⟨?_, ?_, ?_⟩
      · simp only [check_all_philosophers_satisfied, if_neg h, if_neg hc]
        exact ⟨fun hfalse => (Bool.false_ne_true hfalse).elim,
          fun hall => (hc (hiff.mpr hall)).elim⟩
      · intro htrue
        exfalso
        simp [check_all_philosophers_satisfied, h, hc] at htrue
      · intro _
        simp [check_all_philosophers_satisfied, h, hc]
  · intro h0
    rcases hgo : check_for_death_go sim.time_to_die now sim.philosophers with _ | i
    · have hcfd : check_for_death sim now = (sim, 0) := by
        simp [check_for_death, hgo]
      simp [evaluate_simulation_status, hcfd]
    · have hcfd : check_for_death sim now =
          ({ sim with simulation_ended := true }, (i : Int) + 1) := by
        simp [check_for_death, hgo]
      rw [hcfd] at h0
      omega

/-- Witness for C3: in `wSimSat` nobody is starving at time 1, the meal
requirement 3 is met by both philosophers, so the satisfaction check
returns `TRUE` and the monitor's evaluation ends the simulation. -/
theorem satisfaction_check_spec_witness :
    (check_all_philosophers_satisfied wSimSat).2 = true ∧
    (evaluate_simulation_status wSimSat 1).1.simulation_ended = true := by
  have h := satisfaction_check_spec wSimSat 1 (by decide)
  have htrue : (check_all_philosophers_satisfied wSimSat).2 = true :=
    ((h.2.1 (by decide)).1).mpr (by decide)
  refine ⟨htrue, ?_⟩
  rw [h.2.2 (by decide), (h.2.1 (by decide)).2.1 htrue]

/-! ### Termination-flag latch lemmas -/

theorem check_for_death_ended_mono (sim : MSim) (now : Int) :
    (check_for_death sim now).1.simulation_ended = sim.simulation_ended ∨
      (check_for_death sim now).1.simulation_ended = true := by
  rcases h : check_for_death_go sim.time_to_die now sim.philosophers with _ | i <;>
    simp [check_for_death, h]

theorem check_all_ended_mono (sim : MSim) :
    (check_all_philosophers_satisfied sim).1.simulation_ended =
        sim.simulation_ended ∨
      (check_all_philosophers_satisfied sim).1.simulation_ended = true := by
  unfold check_all_philosophers_satisfied
  split_ifs <;> simp

theorem evaluate_ended_of_ended (sim : MSim) (now : Int)
    (h : sim.simulation_ended = true) :
    (evaluate_simulation_status sim now).1.simulation_ended = true := by
  rcases hgo : check_for_death_go sim.time_to_die now sim.philosophers with _ | i
  · have hcfd : check_for_death sim now = (sim, 0) := by
      simp [check_for_death, hgo]
    simp only [evaluate_simulation_status, hcfd]
    norm_num
    unfold check_all_philosophers_satisfied
    split_ifs <;> simp [h]
  · have hcfd : check_for_death sim now =
        ({ sim with simulation_ended := true }, (i : Int) + 1) := by
      simp [check_for_death, hgo]
    simp [evaluate_simulation_status, hcfd]

theorem monitorLoop_ended_of_ended (interval : Int) (obs : List MObs)
    (sim : MSim) (h : sim.simulation_ended = true) :
    (monitorLoop interval obs sim).1.simulation_ended = true := by
  induction obs generalizing sim with
  | nil => simpa [monitorLoop] using h
  | cons o rest ih =>
    have h0 : (MSim.mk sim.philosopher_count sim.time_to_die sim.required_meals
        o.philos sim.simulation_ended).simulation_ended = true := h
    simp only [monitorLoop]
    by_cases hr : (evaluate_simulation_status
        { sim with philosophers := o.philos } o.now).2.1 = true
    · simp only [hr, if_true]
      exact evaluate_ended_of_ended _ _ h0
    · simp only [hr, if_false]
      exact ih _ (evaluate_ended_of_ended _ _ h0)

/-- C6: the termination flag latches.  Each of the two flag-writing
functions either leaves `simulation_ended` unchanged or sets it to `true`
(they contain the only writes), and once the flag is `true`, the death
check, the satisfaction check, a whole monitor evaluation, and any run of
the monitor polling loop all leave it `true`.  The actor-side embedding
(`philosopher_lifecycle` and its callees) carries no termination flag in
its state at all, mirroring that `src/philo.c` only ever reads it. -/
theorem simulation_ended_latches (sim : MSim) (now : Int)
    (obs : List MObs) (interval : Int) :
    ((check_for_death sim now).1.simulation_ended = sim.simulation_ended ∨
      (check_for_death sim now).1.simulation_ended = true) ∧
    ((check_all_philosophers_satisfied sim).1.simulation_ended =
        sim.simulation_ended ∨
      (check_all_philosophers_satisfied sim).1.simulation_ended = true) ∧
    (sim.simulation_ended = true →
      (check_for_death sim now).1.simulation_ended = true ∧
      (check_all_philosophers_satisfied sim).1.simulation_ended = true ∧
      (evaluate_simulation_status sim now).1.simulation_ended = true ∧
      (monitorLoop interval obs sim).1.simulation_ended = true) := by
  refine ⟨check_for_death_ended_mono sim now, check_all_ended_mono sim, ?_⟩
  intro h
  refine ⟨?_, ?_, evaluate_ended_of_ended sim now h,
    monitorLoop_ended_of_ended interval obs sim h⟩
  · rcases check_for_death_ended_mono sim now with h1 | h1
    · rw [h1, h]
    · exact h1
  · rcases check_all_ended_mono sim with h1 | h1
    · rw [h1, h]
    · exact h1

/-- Witness for C6: starting from `wSimEnded` (flag already set), the
monitor's checks and polling loop keep the flag set. -/
theorem simulation_ended_latches_witness :
    (check_for_death wSimEnded 0).1.simulation_ended = true ∧
    (check_all_philosophers_satisfied wSimEnded).1.simulation_ended = true ∧
    (evaluate_simulation_status wSimEnded 0).1.simulation_ended = true ∧
    (monitorLoop 500 wObs wSimEnded).1.simulation_ended = true := by
  have h := (simulation_ended_latches wSimEnded 0 wObs 500).2.2 (by decide)
  exact ⟨h.1, h.2.1, h.2.2.1, h.2.2.2⟩

/-! ### Monitor frame lemmas -/

theorem evaluate_frame (sim : MSim) (now : Int) :
    (evaluate_simulation_status sim now).1.philosophers = sim.philosophers ∧
    (evaluate_simulation_status sim now).1.philosopher_count =
      sim.philosopher_count ∧
    (evaluate_simulation_status sim now).1.time_to_die = sim.time_to_die ∧
    (evaluate_simulation_status sim now).1.required_meals =
      sim.required_meals := by
  rcases hgo : check_for_death_go sim.time_to_die now sim.philosophers with _ | i
  · have hcfd : check_for_death sim now = (sim, 0) := by
      simp [check_for_death, hgo]
    simp only [evaluate_simulation_status, hcfd]
    norm_num
    unfold check_all_philosophers_satisfied
    split_ifs <;> simp
  · have hcfd : check_for_death sim now =
        ({ sim with simulation_ended := true }, (i : Int) + 1) := by
      simp [check_for_death, hgo]
    simp [evaluate_simulation_status, hcfd]

theorem evaluate_ended_mono (sim : MSim) (now : Int) :
    (evaluate_simulation_status sim now).1.simulation_ended =
        sim.simulation_ended ∨
      (evaluate_simulation_status sim now).1.simulation_ended = true := by
  rcases hgo : check_for_death_go sim.time_to_die now sim.philosophers with _ | i
  · have hcfd : check_for_death sim now = (sim, 0) := by
      simp [check_for_death, hgo]
    simp only [evaluate_simulation_status, hcfd]
    norm_num
    exact check_all_ended_mono sim
  · have hcfd : check_for_death sim now =
        ({ sim with simulation_ended := true }, (i : Int) + 1) := by
      simp [check_for_death, hgo]
    simp [evaluate_simulation_status, hcfd]

theorem evaluate_events_noFork (sim : MSim) (now : Int) :
    ∀ e ∈ (evaluate_simulation_status sim now).2.2,
      isForkMutexEvent e = false := by
  intro e he
  rcases hgo : check_for_death_go sim.time_to_die now sim.philosophers with _ | i
  · have hcfd : check_for_death sim now = (sim, 0) := by
      simp [check_for_death, hgo]
    simp [evaluate_simulation_status, hcfd] at he
    rcases he with rfl | rfl <;> rfl
  · have hcfd : check_for_death sim now =
        ({ sim with simulation_ended := true }, (i : Int) + 1) := by
      simp [check_for_death, hgo]
    simp [evaluate_simulation_status, hcfd] at he
    rcases he with rfl | rfl | rfl <;> rfl

theorem monitorLoop_events_noFork (interval : Int) (obs : List MObs) :
    ∀ sim, ∀ e ∈ (monitorLoop interval obs sim).2,
      isForkMutexEvent e = false := by
  induction obs with
  | nil =>
    intro sim e he
    simp [monitorLoop] at he
  | cons o rest ih =>
    intro sim e he
    simp only [monitorLoop] at he
    by_cases hr : (evaluate_simulation_status
        { sim with philosophers := o.philos } o.now).2.1 = true
    · rw [if_pos hr] at he
      exact evaluate_events_noFork _ _ e he
    · rw [if_neg hr] at he
      rcases List.mem_append.mp he with he1 | he2
      · exact evaluate_events_noFork _ _ e he1
      · rcases List.mem_cons.mp he2 with rfl | he3
        · rfl
        · exact ih _ e he3

/-- C9: the monitor's status evaluation is read-only on the per-actor
records and the configuration — its only possible write to the shared state
is setting the termination flag — and neither one evaluation nor the whole
polling loop ever locks, unlocks or destroys a fork mutex; the full monitor
trace is the polling-loop trace followed by the cleanup trace, and only the
latter touches fork mutexes (the `destroyFork` events). -/
theorem monitor_frame_effects (sim : MSim) (now : Int) (obs : List MObs) :
    (evaluate_simulation_status sim now).1.philosophers = sim.philosophers ∧
    (evaluate_simulation_status sim now).1.philosopher_count =
      sim.philosopher_count ∧
    (evaluate_simulation_status sim now).1.time_to_die = sim.time_to_die ∧
    (evaluate_simulation_status sim now).1.required_meals =
      sim.required_meals ∧
    ((evaluate_simulation_status sim now).1.simulation_ended =
        sim.simulation_ended ∨
      (evaluate_simulation_status sim now).1.simulation_ended = true) ∧
    (∀ e ∈ (evaluate_simulation_status sim now).2.2,
      isForkMutexEvent e = false) ∧
    (∀ e ∈ (monitorLoop (clampInterval sim.time_to_die) obs sim).2,
      isForkMutexEvent e = false) ∧
    (monitor_simulation_and_cleanup obs sim).2 =
      (monitorLoop (clampInterval sim.time_to_die) obs sim).2 ++
        cleanup_simulation_resources sim.philosopher_count := by
  obtain ⟨h1, h2, h3, h4⟩ := evaluate_frame sim now
  exact ⟨h1, h2, h3, h4, evaluate_ended_mono sim now,
    evaluate_events_noFork sim now,
    monitorLoop_events_noFork (clampInterval sim.time_to_die) obs sim,
    rfl⟩

/-- Witness for C9 at a concrete state: the evaluation leaves the records
of `wSimDeath` unchanged and its first monitor event (the data-mutex lock)
is not a fork-mutex event. -/
theorem monitor_frame_effects_witness :
    (evaluate_simulation_status wSimDeath 0).1.philosophers =
      wSimDeath.philosophers ∧
    isForkMutexEvent Event.lockData = false := by
  have h := monitor_frame_effects wSimDeath 0 wObs
  exact ⟨h.1, h.2.2.2.2.2.1 Event.lockData (by decide)⟩

/-! ### Responsive-wait lemmas (`philo_spend_time`) -/

theorem spendLoop_philo (env : Env) (fuel : Nat) (start dur : Int) :
    ∀ st, (spendLoop env fuel start dur st).philo = st.philo := by
  induction fuel with
  | zero => intro st; rfl
  | succ fuel ih =>
    intro st
    by_cases hb : env.flag st.fi = true
    · simp [spendLoop, is_simulation_finished, hb]
    · have hb' : env.flag st.fi = false := by simpa using hb
      by_cases ht : env.time st.ti - start ≥ dur
      · simp [spendLoop, is_simulation_finished, get_current_time_ms, hb', ht]
      · have hstep : spendLoop env (fuel + 1) start dur st =
            spendLoop env fuel start dur
              (usleepEv (sleepIncrement (dur - (env.time st.ti - start)))
                (get_current_time_ms env (is_simulation_finished env st).2).2) := by
          simp [spendLoop, is_simulation_finished, get_current_time_ms,
            usleepEv, hb', ht]
        rw [hstep, ih]
        simp [usleepEv, get_current_time_ms, is_simulation_finished]

theorem spendLoop_events_shape (env : Env) (fuel : Nat) (start dur : Int) :
    ∀ st, ∃ w, (spendLoop env fuel start dur st).events = st.events ++ w ∧
      ∀ e ∈ w, (∃ b, e = Event.checkFlag b) ∨ ∃ us, e = Event.sleep us := by
  induction fuel with
  | zero => intro st; exact ⟨[], by simp [spendLoop], by simp⟩
  | succ fuel ih =>
    intro st
    by_cases hb : env.flag st.fi = true
    · refine ⟨[Event.checkFlag true], ?_, ?_⟩
      · simp [spendLoop, is_simulation_finished, hb]
      · intro e he
        simp only [List.mem_singleton] at he
        subst he
        exact Or.inl ⟨true, rfl⟩
    · have hb' : env.flag st.fi = false := by simpa using hb
      by_cases ht : env.time st.ti - start ≥ dur
      · refine ⟨[Event.checkFlag false], ?_, ?_⟩
        · simp [spendLoop, is_simulation_finished, get_current_time_ms, hb', ht]
        · intro e he
          simp only [List.mem_singleton] at he
          subst he
          exact Or.inl ⟨false, rfl⟩
      · have hstep : spendLoop env (fuel + 1) start dur st =
            spendLoop env fuel start dur
              (usleepEv (sleepIncrement (dur - (env.time st.ti - start)))
                (get_current_time_ms env (is_simulation_finished env st).2).2) := by
          simp [spendLoop, is_simulation_finished, get_current_time_ms,
            usleepEv, hb', ht]
        obtain ⟨w, hw, hall⟩ := ih
          (usleepEv (sleepIncrement (dur - (env.time st.ti - start)))
            (get_current_time_ms env (is_simulation_finished env st).2).2)
        simp only [usleepEv, get_current_time_ms, is_simulation_finished,
          hb'] at hw
        refine ⟨Event.checkFlag false ::
          Event.sleep (sleepIncrement (dur - (env.time st.ti - start))) :: w,
          ?_, ?_⟩
        · rw [hstep]
          simp only [usleepEv, get_current_time_ms, is_simulation_finished, hb']
          rw [hw]
          simp
        · intro e he
          rcases List.mem_cons.mp he with rfl | he
          · exact Or.inl ⟨false, rfl⟩
          · rcases List.mem_cons.mp he with rfl | he
            · exact Or.inr ⟨_, rfl⟩
            · exact hall e he

theorem spendLoop_spec (env : Env) (fuel : Nat) (start dur : Int) :
    ∀ st : St, ∃ n : Nat, n ≤ fuel ∧
      (∀ k, k < n → env.flag (st.fi + k) = false ∧
        env.time (st.ti + k) - start < dur) ∧
      ((n = fuel ∧
          (spendLoop env fuel start dur st).fi = st.fi + n ∧
          (spendLoop env fuel start dur st).ti = st.ti + n ∧
          (spendLoop env fuel start dur st).events =
            st.events ++ spendTrace env start dur st.ti n) ∨
        (n < fuel ∧ env.flag (st.fi + n) = true ∧
          (spendLoop env fuel start dur st).fi = st.fi + n + 1 ∧
          (spendLoop env fuel start dur st).ti = st.ti + n ∧
          (spendLoop env fuel start dur st).events =
            st.events ++ spendTrace env start dur st.ti n ++
              [Event.checkFlag true]) ∨
        (n < fuel ∧ env.flag (st.fi + n) = false ∧
          env.time (st.ti + n) - start ≥ dur ∧
          (spendLoop env fuel start dur st).fi = st.fi + n + 1 ∧
          (spendLoop env fuel start dur st).ti = st.ti + n + 1 ∧
          (spendLoop env fuel start dur st).events =
            st.events ++ spendTrace env start dur st.ti n ++
              [Event.checkFlag false])) := by
  induction fuel with
  | zero =>
    intro st
    refine ⟨0, le_refl 0, fun k hk => absurd hk (Nat.not_lt_zero k),
      Or.inl ⟨rfl, ?_, ?_, ?_⟩⟩ <;> simp [spendLoop, spendTrace]
  | succ fuel ih =>
    intro st
    by_cases hb : env.flag st.fi = true
    · have hrun : spendLoop env (fuel + 1) start dur st =
          (is_simulation_finished env st).2 := by
        simp [spendLoop, is_simulation_finished, hb]
      refine ⟨0, Nat.zero_le _, fun k hk => absurd hk (Nat.not_lt_zero k),
        Or.inr (Or.inl ⟨Nat.succ_pos fuel, by simpa using hb,
          ?_, ?_, ?_⟩)⟩ <;>
        simp [hrun, is_simulation_finished, spendTrace, hb]
    · have hb' : env.flag st.fi = false := by simpa using hb
      by_cases ht : env.time st.ti - start ≥ dur
      · have hrun : spendLoop env (fuel + 1) start dur st =
            (get_current_time_ms env (is_simulation_finished env st).2).2 := by
          simp [spendLoop, is_simulation_finished, get_current_time_ms, hb', ht]
        refine ⟨0, Nat.zero_le _, fun k hk => absurd hk (Nat.not_lt_zero k),
          Or.inr (Or.inr ⟨Nat.succ_pos fuel, by simpa using hb',
            by simpa using ht, ?_, ?_, ?_⟩)⟩ <;>
          simp [hrun, is_simulation_finished, get_current_time_ms, spendTrace,
            hb']
      · push_neg at ht
        have hstep : spendLoop env (fuel + 1) start dur st =
            spendLoop env fuel start dur
              (usleepEv (sleepIncrement (dur - (env.time st.ti - start)))
                (get_current_time_ms env (is_simulation_finished env st).2).2) := by
          simp [spendLoop, is_simulation_finished, get_current_time_ms,
            usleepEv, hb', not_le.mpr ht]
        obtain ⟨n, hn, hiter, hcase⟩ := ih
          (usleepEv (sleepIncrement (dur - (env.time st.ti - start)))
            (get_current_time_ms env (is_simulation_finished env st).2).2)
        simp only [usleepEv, get_current_time_ms, is_simulation_finished,
          hb'] at hiter hcase
        refine ⟨n + 1, by omega, ?_, ?_⟩
        · intro k hk
          cases k with
          | zero => exact ⟨by simpa using hb', by simpa using ht⟩
          | succ j =>
            have hj := hiter j (by omega)
            have e1 : st.fi + (j + 1) = st.fi + 1 + j := by omega
            have e2 : st.ti + (j + 1) = st.ti + 1 + j := by omega
            rw [e1, e2]
            exact hj
        · have etr : spendTrace env start dur st.ti (n + 1) =
              Event.checkFlag false ::
                Event.sleep (sleepIncrement (dur - (env.time st.ti - start))) ::
                  spendTrace env start dur (st.ti + 1) n := rfl
          have efi : st.fi + (n + 1) = st.fi + 1 + n := by omega
          have eti : st.ti + (n + 1) = st.ti + 1 + n := by omega
          rcases hcase with ⟨hfe, h1, h2, h3⟩ | ⟨hlt, hflag, h1, h2, h3⟩ |
            ⟨hlt, hflag, htime, h1, h2, h3⟩
          · left
            refine ⟨by omega, ?_, ?_, ?_⟩
            · rw [hstep]
              simp only [usleepEv, get_current_time_ms, is_simulation_finished,
                hb']
              rw [h1]
              omega
            · rw [hstep]
              simp only [usleepEv, get_current_time_ms, is_simulation_finished,
                hb']
              rw [h2]
              omega
            · rw [hstep]
              simp only [usleepEv, get_current_time_ms, is_simulation_finished,
                hb']
              rw [h3, etr]
              simp
          · right; left
            refine ⟨by omega, ?_, ?_, ?_, ?_⟩
            · rw [efi]; exact hflag
            · rw [hstep]
              simp only [usleepEv, get_current_time_ms, is_simulation_finished,
                hb']
              rw [h1]
              omega
            · rw [hstep]
              simp only [usleepEv, get_current_time_ms, is_simulation_finished,
                hb']
              rw [h2]
              omega
            · rw [hstep]
              simp only [usleepEv, get_current_time_ms, is_simulation_finished,
                hb']
              rw [h3, etr]
              simp
          · right; right
            refine ⟨by omega, ?_, ?_, ?_, ?_, ?_⟩
            · rw [efi]; exact hflag
            · rw [eti]; exact htime
            · rw [hstep]
              simp only [usleepEv, get_current_time_ms, is_simulation_finished,
                hb']
              rw [h1]
              omega
            · rw [hstep]
              simp only [usleepEv, get_current_time_ms, is_simulation_finished,
                hb']
              rw [h2]
              omega
            · rw [hstep]
              simp only [usleepEv, get_current_time_ms, is_simulation_finished,
                hb']
              rw [h3, etr]
              simp

/-- C4: the responsive wait reads the termination flag at every loop
iteration and returns exactly at the first iteration that observes the
flag `true`, or — flag still `false` — sees that `duration` ms have
elapsed since its start read, whichever happens first (unless the
iteration budget `fuel` runs out first); every earlier iteration saw the
flag `false` with time still remaining and slept by the adaptive
increment, which is 1000 µs while more than 10 ms remain, 100 µs while
more than 1 ms remains, and 10 µs otherwise. -/
theorem philo_spend_time_responsive (env : Env) (fuel : Nat) (dur : Int)
    (st : St) :
    (∀ r : Int, (10 < r → sleepIncrement r = 1000) ∧
      (1 < r ∧ r ≤ 10 → sleepIncrement r = 100) ∧
      (r ≤ 1 → sleepIncrement r = 10)) ∧
    ∃ n : Nat, n ≤ fuel ∧
      (∀ k, k < n → env.flag (st.fi + k) = false ∧
        env.time (st.ti + 1 + k) - env.time st.ti < dur) ∧
      ((n = fuel ∧
          (philo_spend_time env fuel dur st).fi = st.fi + n ∧
          (philo_spend_time env fuel dur st).ti = st.ti + 1 + n ∧
          (philo_spend_time env fuel dur st).events =
            st.events ++ spendTrace env (env.time st.ti) dur (st.ti + 1) n) ∨
        (n < fuel ∧ env.flag (st.fi + n) = true ∧
          (philo_spend_time env fuel dur st).fi = st.fi + n + 1 ∧
          (philo_spend_time env fuel dur st).ti = st.ti + 1 + n ∧
          (philo_spend_time env fuel dur st).events =
            st.events ++ spendTrace env (env.time st.ti) dur (st.ti + 1) n ++
              [Event.checkFlag true]) ∨
        (n < fuel ∧ env.flag (st.fi + n) = false ∧
          env.time (st.ti + 1 + n) - env.time st.ti ≥ dur ∧
          (philo_spend_time env fuel dur st).fi = st.fi + n + 1 ∧
          (philo_spend_time env fuel dur st).ti = st.ti + 1 + n + 1 ∧
          (philo_spend_time env fuel dur st).events =
            st.events ++ spendTrace env (env.time st.ti) dur (st.ti + 1) n ++
              [Event.checkFlag false])) := by
  constructor
  · intro r
    refine ⟨fun h => by rw [sleepIncrement, if_pos (by omega)],
      fun h => by rw [sleepIncrement, if_neg (by omega), if_pos (by omega)],
      fun h => by rw [sleepIncrement, if_neg (by omega), if_neg (by omega)]⟩
  · obtain ⟨n, hn, hiter, hcase⟩ :=
      spendLoop_spec env fuel (env.time st.ti) dur (get_current_time_ms env st).2
    simp only [get_current_time_ms] at hiter hcase
    simp only [philo_spend_time, get_current_time_ms]
    exact ⟨n, hn, hiter, hcase⟩

/-- Witness for C4: a concrete 3 ms responsive wait under `wEnvLate`
performs a 100 µs sleep (2 ms remaining), then a 10 µs sleep (1 ms
remaining), and exits by elapsed time at the third flag check. -/
theorem philo_spend_time_responsive_witness :
    sleepIncrement 2 = 100 ∧
    (philo_spend_time wEnvLate 5 3 wStA).events =
      [Event.checkFlag false, Event.sleep 100, Event.checkFlag false,
       Event.sleep 10, Event.checkFlag false] := by
  refine ⟨((philo_spend_time_responsive wEnvLate 5 3 wStA).1 2).2.1
    (by decide), ?_⟩
  decide

theorem philo_spend_time_philo (env : Env) (fuel : Nat) (dur : Int)
    (st : St) : (philo_spend_time env fuel dur st).philo = st.philo := by
  simp only [philo_spend_time]
  rw [spendLoop_philo]
  rfl

theorem philo_spend_time_events_shape (env : Env) (fuel : Nat) (dur : Int)
    (st : St) :
    ∃ w, (philo_spend_time env fuel dur st).events = st.events ++ w ∧
      ∀ e ∈ w, (∃ b, e = Event.checkFlag b) ∨ ∃ us, e = Event.sleep us := by
  obtain ⟨w, hw, hall⟩ := spendLoop_events_shape env fuel (env.time st.ti) dur
    (get_current_time_ms env st).2
  exact ⟨w, hw, hall⟩

theorem philo_spend_time_events_mono (env : Env) (fuel : Nat) (dur : Int)
    (st : St) :
    ∃ w, (philo_spend_time env fuel dur st).events = st.events ++ w := by
  obtain ⟨w, hw, _⟩ := philo_spend_time_events_shape env fuel dur st
  exact ⟨w, hw⟩

theorem events_ext_trans {a b c : St}
    (h1 : ∃ w, b.events = a.events ++ w)
    (h2 : ∃ w, c.events = b.events ++ w) :
    ∃ w, c.events = a.events ++ w := by
  obtain ⟨w1, e1⟩ := h1
  obtain ⟨w2, e2⟩ := h2
  exact ⟨w1 ++ w2, by rw [e2, e1, List.append_assoc]⟩

theorem lockFork_events_mono (i : Nat) (st : St) :
    ∃ w, (lockFork i st).events = st.events ++ w := ⟨_, rfl⟩

theorem unlockFork_events_mono (i : Nat) (st : St) :
    ∃ w, (unlockFork i st).events = st.events ++ w := ⟨_, rfl⟩

theorem lockData_events_mono (st : St) :
    ∃ w, (lockData st).events = st.events ++ w := ⟨_, rfl⟩

theorem unlockData_events_mono (st : St) :
    ∃ w, (unlockData st).events = st.events ++ w := ⟨_, rfl⟩

theorem emitStatus_events_mono (m : String) (st : St) :
    ∃ w, (emitStatus m st).events = st.events ++ w := ⟨_, rfl⟩

theorem usleepEv_events_mono (us : Int) (st : St) :
    ∃ w, (usleepEv us st).events = st.events ++ w := ⟨_, rfl⟩

theorem is_sim_snd_events_mono (env : Env) (st : St) :
    ∃ w, ((is_simulation_finished env st).2).events = st.events ++ w :=
  ⟨_, rfl⟩

theorem gct_snd_events_mono (env : Env) (st : St) :
    ∃ w, ((get_current_time_ms env st).2).events = st.events ++ w :=
  ⟨[], by simp [get_current_time_ms]⟩

theorem set_last_meal_time_events_mono (t : Int) (st : St) :
    ∃ w, (set_last_meal_time t st).events = st.events ++ w :=
  ⟨[], by simp [set_last_meal_time]⟩

theorem increment_meals_eaten_events_mono (st : St) :
    ∃ w, (increment_meals_eaten st).events = st.events ++ w :=
  ⟨[], by simp [increment_meals_eaten]⟩

theorem release_forks_events_mono (st : St) :
    ∃ w, (release_forks st).events = st.events ++ w :=
  ⟨[Event.unlock st.philo.left_fork_index,
    Event.unlock st.philo.right_fork_index],
    by simp [release_forks, unlockFork]⟩

theorem acquire_forks_events_mono (st : St) :
    ∃ w, (acquire_forks st).events = st.events ++ w := by
  unfold acquire_forks
  split_ifs <;> exact ⟨_, rfl⟩

theorem philosopher_eat_events_mono (env : Env) (fuel : Nat) (cfg : SimCfg)
    (st : St) :
    ∃ w, (philosopher_eat env fuel cfg st).events = st.events ++ w := by
  by_cases h : cfg.philosopher_count = 1
  · simp only [philosopher_eat, if_pos h]
    set a := lockFork st.philo.left_fork_index st with ha
    set b := emitStatus "has taken a fork" a with hb
    set c := philo_spend_time env fuel (cfg.time_to_die + 1) b with hc
    exact events_ext_trans (events_ext_trans (events_ext_trans
      (lockFork_events_mono st.philo.left_fork_index st)
      (emitStatus_events_mono "has taken a fork" a))
      (philo_spend_time_events_mono env fuel (cfg.time_to_die + 1) b))
      (unlockFork_events_mono st.philo.left_fork_index c)
  · simp only [philosopher_eat, if_neg h]
    set a := acquire_forks st with ha
    set b := emitStatus "is eating" a with hb
    set c := lockData b with hc
    set d := (get_current_time_ms env c).2 with hd
    set e := set_last_meal_time (get_current_time_ms env c).1 d with he
    set f := increment_meals_eaten e with hf
    set g := unlockData f with hg
    set i := philo_spend_time env fuel cfg.time_to_eat g with hi
    exact events_ext_trans (events_ext_trans (events_ext_trans
      (events_ext_trans (events_ext_trans (events_ext_trans
        (events_ext_trans (events_ext_trans (acquire_forks_events_mono st)
          (emitStatus_events_mono "is eating" a))
          (lockData_events_mono b))
          (gct_snd_events_mono env c))
          (set_last_meal_time_events_mono (get_current_time_ms env c).1 d))
          (increment_meals_eaten_events_mono e))
          (unlockData_events_mono f))
          (philo_spend_time_events_mono env fuel cfg.time_to_eat g))
      (release_forks_events_mono i)

theorem lifecycleLoop_events_mono (env : Env) (cycles sfuel : Nat)
    (cfg : SimCfg) :
    ∀ st, ∃ w, (lifecycleLoop env cycles sfuel cfg st).events =
      st.events ++ w := by
  induction cycles with
  | zero => intro st; exact ⟨[], by simp [lifecycleLoop]⟩
  | succ cycles ih =>
    intro st
    simp only [lifecycleLoop]
    split
    · exact is_sim_snd_events_mono env st
    · set a := (is_simulation_finished env st).2 with ha
      set b := philosopher_eat env sfuel cfg a with hb
      have hab : ∃ w, b.events = st.events ++ w :=
        events_ext_trans (is_sim_snd_events_mono env st)
          (philosopher_eat_events_mono env sfuel cfg a)
      split
      · exact events_ext_trans hab (is_sim_snd_events_mono env b)
      · set c := (is_simulation_finished env b).2 with hcdef
        set d := emitStatus "is sleeping" c with hddef
        set e := philo_spend_time env sfuel cfg.time_to_sleep d with hedef
        have hae : ∃ w, e.events = st.events ++ w :=
          events_ext_trans (events_ext_trans (events_ext_trans hab
            (is_sim_snd_events_mono env b))
            (emitStatus_events_mono "is sleeping" c))
            (philo_spend_time_events_mono env sfuel cfg.time_to_sleep d)
        split
        · exact events_ext_trans hae (is_sim_snd_events_mono env e)
        · set f := (is_simulation_finished env e).2 with hfdef
          set g := emitStatus "is thinking" f with hgdef
          have hag : ∃ w, g.events = st.events ++ w :=
            events_ext_trans (events_ext_trans hae
              (is_sim_snd_events_mono env e))
              (emitStatus_events_mono "is thinking" f)
          split
          · exact events_ext_trans (events_ext_trans hag
              (usleepEv_events_mono 100 g)) (ih (usleepEv 100 g))
          · exact events_ext_trans hag (ih g)

theorem lifecycleLoop_events_head (env : Env) (cycles sfuel : Nat)
    (cfg : SimCfg) (st : St) :
    ∃ w, (lifecycleLoop env cycles sfuel cfg st).events = st.events ++ w ∧
      (w = [] ∨ ∃ b rest, w = Event.checkFlag b :: rest) := by
  cases cycles with
  | zero => exact ⟨[], by simp [lifecycleLoop], Or.inl rfl⟩
  | succ cycles =>
    have key : ∃ w2, (lifecycleLoop env (cycles + 1) sfuel cfg st).events =
        (is_simulation_finished env st).2.events ++ w2 := by
      simp only [lifecycleLoop]
      split
      · exact ⟨[], by simp⟩
      · set a := (is_simulation_finished env st).2 with ha
        set b := philosopher_eat env sfuel cfg a with hb
        have hab : ∃ w, b.events = a.events ++ w :=
          philosopher_eat_events_mono env sfuel cfg a
        split
        · exact events_ext_trans hab (is_sim_snd_events_mono env b)
        · set c := (is_simulation_finished env b).2 with hcdef
          set d := emitStatus "is sleeping" c with hddef
          set e := philo_spend_time env sfuel cfg.time_to_sleep d with hedef
          have hae : ∃ w, e.events = a.events ++ w :=
            events_ext_trans (events_ext_trans (events_ext_trans hab
              (is_sim_snd_events_mono env b))
              (emitStatus_events_mono "is sleeping" c))
              (philo_spend_time_events_mono env sfuel cfg.time_to_sleep d)
          split
          · exact events_ext_trans hae (is_sim_snd_events_mono env e)
          · set f := (is_simulation_finished env e).2 with hfdef
            set g := emitStatus "is thinking" f with hgdef
            have hag : ∃ w, g.events = a.events ++ w :=
              events_ext_trans (events_ext_trans hae
                (is_sim_snd_events_mono env e))
                (emitStatus_events_mono "is thinking" f)
            split
            · exact events_ext_trans (events_ext_trans hag
                (usleepEv_events_mono 100 g))
                (lifecycleLoop_events_mono env cycles sfuel cfg
                  (usleepEv 100 g))
            · exact events_ext_trans hag
                (lifecycleLoop_events_mono env cycles sfuel cfg g)
    obtain ⟨w2, hw2⟩ := key
    refine ⟨Event.checkFlag (env.flag st.fi) :: w2, ?_, Or.inr ⟨_, _, rfl⟩⟩
    rw [hw2]
    simp [is_simulation_finished]

/-- C7: with a single philosopher (`philosopher_count == 1`) the eat phase
locks the one (left) fork, emits "has taken a fork", waits
`time_to_die + 1` ms through the responsive wait, unlocks that same fork
and returns: the appended trace is exactly lock, status, a responsive-wait
segment consisting of flag checks and sleeps only — in particular no second
fork lock and no "is eating" emission, so the general acquisition path is
never entered — then the unlock of the same fork; the meal record is left
untouched. -/
theorem single_philosopher_eat_spec (env : Env) (fuel : Nat) (cfg : SimCfg)
    (st : St) (h1 : cfg.philosopher_count = 1) :
    philosopher_eat env fuel cfg st =
      unlockFork st.philo.left_fork_index
        (philo_spend_time env fuel (cfg.time_to_die + 1)
          (emitStatus "has taken a fork"
            (lockFork st.philo.left_fork_index st))) ∧
    (philosopher_eat env fuel cfg st).philo = st.philo ∧
    ∃ w, (philosopher_eat env fuel cfg st).events =
        st.events ++ [Event.lock st.philo.left_fork_index,
          Event.status st.philo.id "has taken a fork"] ++ w ++
          [Event.unlock st.philo.left_fork_index] ∧
      ∀ e ∈ w, (∃ b, e = Event.checkFlag b) ∨ ∃ us, e = Event.sleep us := by
  have heq : philosopher_eat env fuel cfg st =
      unlockFork st.philo.left_fork_index
        (philo_spend_time env fuel (cfg.time_to_die + 1)
          (emitStatus "has taken a fork"
            (lockFork st.philo.left_fork_index st))) := by
    simp only [philosopher_eat, if_pos h1]
  refine ⟨heq, ?_, ?_⟩
  · rw [heq]
    simp only [unlockFork]
    rw [philo_spend_time_philo]
    rfl
  · obtain ⟨w, hw, hall⟩ := philo_spend_time_events_shape env fuel
      (cfg.time_to_die + 1)
      (emitStatus "has taken a fork" (lockFork st.philo.left_fork_index st))
    refine ⟨w, ?_, hall⟩
    rw [heq]
    simp only [unlockFork]
    rw [hw]
    simp [emitStatus, lockFork, List.append_assoc]

/-- Witness for C7: one philosopher, termination already observed at the
first check inside the wait — the whole eat phase is lock fork 0, status,
one flag check, unlock fork 0, and the record is unchanged. -/
theorem single_philosopher_eat_spec_witness :
    (philosopher_eat wEnvTrue 1 wCfg1 wStA).philo = wStA.philo ∧
    (philosopher_eat wEnvTrue 1 wCfg1 wStA).events =
      [Event.lock 0, Event.status 1 "has taken a fork",
       Event.checkFlag true, Event.unlock 0] := by
  have h := single_philosopher_eat_spec wEnvTrue 1 wCfg1 wStA (by decide)
  exact ⟨h.2.1, by decide⟩

/-- Counterexample for C8: with `time_to_eat = 200` (ms, from `wCfg`), the
even-id philosopher's startup delay is the event `usleep(100)` — 100
microseconds, i.e. the raw value `time_to_eat / 2` handed to the
microsecond-sleep `usleep` — not the 200 * 1000 / 2 = 100000 microseconds
that a delay of `time_to_eat / 2` milliseconds would be. -/
theorem startup_delay_units_counterexample :
    (philosopher_lifecycle wEnvTrue 1 1 wCfg wStB).events.head? =
      some (Event.sleep 100) ∧
    (philosopher_lifecycle wEnvTrue 1 1 wCfg wStB).events.head? ≠
      some (Event.sleep (200 * 1000 / 2)) := by
  constructor
  · decide
  · decide

/-- C8 (amended): every even-id philosopher delays by `time_to_eat / 2`
microseconds — the millisecond-valued configuration field is passed
unconverted to the microsecond-sleep `usleep` — before its first cycle,
and every odd-id philosopher starts immediately, its first action being a
termination-flag check rather than any sleep. -/
theorem startup_delay_microseconds (env : Env) (cycles sfuel : Nat)
    (cfg : SimCfg) (p : Philo) (fi ti : Nat) :
    (p.id % 2 = 0 →
      (philosopher_lifecycle env cycles sfuel cfg
        ⟨fi, ti, p, []⟩).events.head? =
          some (Event.sleep (cfg.time_to_eat / 2))) ∧
    (p.id % 2 = 1 →
      ∀ us, (philosopher_lifecycle env cycles sfuel cfg
        ⟨fi, ti, p, []⟩).events.head? ≠ some (Event.sleep us)) := by
  constructor
  · intro he
    have h0 : philosopher_lifecycle env cycles sfuel cfg ⟨fi, ti, p, []⟩ =
        lifecycleLoop env cycles sfuel cfg
          (usleepEv (cfg.time_to_eat / 2) ⟨fi, ti, p, []⟩) := by
      simp [philosopher_lifecycle, he]
    obtain ⟨w, hw⟩ := lifecycleLoop_events_mono env cycles sfuel cfg
      (usleepEv (cfg.time_to_eat / 2) ⟨fi, ti, p, []⟩)
    rw [h0, hw]
    simp [usleepEv]
  · intro ho us
    have h0 : philosopher_lifecycle env cycles sfuel cfg ⟨fi, ti, p, []⟩ =
        lifecycleLoop env cycles sfuel cfg ⟨fi, ti, p, []⟩ := by
      simp [philosopher_lifecycle, show ¬(p.id % 2 = 0) by omega]
    obtain ⟨w, hw, hsh⟩ := lifecycleLoop_events_head env cycles sfuel cfg
      ⟨fi, ti, p, []⟩
    rw [h0, hw]
    rcases hsh with rfl | ⟨b, rest, rfl⟩
    · simp
    · simp

/-- Witness for C8 (amended): philosopher 2 (even) with `time_to_eat = 200`
starts with a 100 µs sleep; philosopher 1 (odd) starts with a flag check,
not a sleep. -/
theorem startup_delay_microseconds_witness :
    (philosopher_lifecycle wEnvTrue 1 1 wCfg ⟨0, 0, wPhilo2, []⟩).events.head? =
      some (Event.sleep 100) ∧
    (philosopher_lifecycle wEnvTrue 1 1 wCfg ⟨0, 0, wPhilo, []⟩).events.head? ≠
      some (Event.sleep 100) := by
  constructor
  · have h := (startup_delay_microseconds wEnvTrue 1 1 wCfg wPhilo2 0 0).1
      (by decide)
    simpa [wCfg] using h
  · exact (startup_delay_microseconds wEnvTrue 1 1 wCfg wPhilo 0 0).2
      (by decide) 100

theorem philosopher_eat_one_philo (env : Env) (fuel : Nat) (cfg : SimCfg)
    (st : St) (h : cfg.philosopher_count = 1) :
    (philosopher_eat env fuel cfg st).philo = st.philo := by
  simp only [philosopher_eat, if_pos h, unlockFork]
  rw [philo_spend_time_philo]
  rfl

theorem lifecycleLoop_one_philo (env : Env) (cycles sfuel : Nat)
    (cfg : SimCfg) (h : cfg.philosopher_count = 1) :
    ∀ st, (lifecycleLoop env cycles sfuel cfg st).philo = st.philo := by
  induction cycles with
  | zero => intro st; rfl
  | succ cycles ih =>
    intro st
    simp only [lifecycleLoop]
    split
    · rfl
    · split
      · show (philosopher_eat env sfuel cfg
            (is_simulation_finished env st).2).philo = st.philo
        rw [philosopher_eat_one_philo env sfuel cfg _ h]
        rfl
      · split
        · show (philo_spend_time env sfuel cfg.time_to_sleep
              (emitStatus "is sleeping" (is_simulation_finished env
                (philosopher_eat env sfuel cfg
                  (is_simulation_finished env st).2)).2)).philo = st.philo
          rw [philo_spend_time_philo]
          show (philosopher_eat env sfuel cfg
            (is_simulation_finished env st).2).philo = st.philo
          rw [philosopher_eat_one_philo env sfuel cfg _ h]
          rfl
        · rw [ih]
          split
          · show (philo_spend_time env sfuel cfg.time_to_sleep
                (emitStatus "is sleeping" (is_simulation_finished env
                  (philosopher_eat env sfuel cfg
                    (is_simulation_finished env st).2)).2)).philo = st.philo
            rw [philo_spend_time_philo]
            show (philosopher_eat env sfuel cfg
              (is_simulation_finished env st).2).philo = st.philo
            rw [philosopher_eat_one_philo env sfuel cfg _ h]
            rfl
          · show (philo_spend_time env sfuel cfg.time_to_sleep
                (emitStatus "is sleeping" (is_simulation_finished env
                  (philosopher_eat env sfuel cfg
                    (is_simulation_finished env st).2)).2)).philo = st.philo
            rw [philo_spend_time_philo]
            show (philosopher_eat env sfuel cfg
              (is_simulation_finished env st).2).philo = st.philo
            rw [philosopher_eat_one_philo env sfuel cfg _ h]
            rfl

/-- C10: in the degenerate single-philosopher case the eat phase — and
hence the whole lifecycle — never writes the actor's meal record
(`last_meal_time` and `meals_eaten` stay exactly as initialized); with
`meals_eaten` still 0 and any `required_meals ≥ 1` the satisfaction check
returns `FALSE` and leaves the state untouched, and if the monitor's
evaluation ends such a run it can only be because the death condition
`now - last_meal_time ≥ time_to_die` held. -/
theorem single_philosopher_meal_record_frame (env : Env)
    (cycles sfuel fuel : Nat) (cfg : SimCfg) (st : St) (sim : MSim)
    (p : Philo) (now : Int)
    (hc : cfg.philosopher_count = 1)
    (hcount : sim.philosopher_count = 1)
    (hp : sim.philosophers = [p]) (hm : p.meals_eaten = 0)
    (hr : sim.required_meals ≥ 1) :
    (philosopher_eat env fuel cfg st).philo = st.philo ∧
    (philosopher_lifecycle env cycles sfuel cfg st).philo = st.philo ∧
    check_all_philosophers_satisfied sim = (sim, false) ∧
    (sim.simulation_ended = false →
      (evaluate_simulation_status sim now).1.simulation_ended = true →
      now - p.last_meal_time ≥ sim.time_to_die) := by
  have hreq : sim.required_meals ≠ -1 := by omega
  have hcs : count_satisfied sim.required_meals sim.philosophers = 0 := by
    rw [hp]
    simp only [count_satisfied, hm]
    rw [if_neg (by omega)]
    simp [count_satisfied]
  have hca : check_all_philosophers_satisfied sim = (sim, false) := by
    unfold check_all_philosophers_satisfied
    rw [if_neg hreq, hcs, hcount, if_neg (by omega)]
  refine ⟨philosopher_eat_one_philo env fuel cfg st hc, ?_, hca, ?_⟩
  · simp only [philosopher_lifecycle]
    rw [lifecycleLoop_one_philo env cycles sfuel cfg hc]
    split <;> rfl
  · intro hsf hflag
    rcases hgo : check_for_death_go sim.time_to_die now sim.philosophers
      with _ | i
    · exfalso
      have hcfd : check_for_death sim now = (sim, 0) := by
        simp [check_for_death, hgo]
      simp [evaluate_simulation_status, hcfd, hca, hsf] at hflag
    · by_cases hstar : now - p.last_meal_time ≥ sim.time_to_die
      · exact hstar
      · exfalso
        rw [hp] at hgo
        simp [check_for_death_go, hstar] at hgo

/-- Witness for C10: a concrete one-philosopher run leaves the record of
`wStA` unchanged, and the satisfaction check on `wSimOne`
(`required_meals = 2`, `meals_eaten = 0`) changes nothing. -/
theorem single_philosopher_meal_record_frame_witness :
    (philosopher_lifecycle wEnvTrue 1 1 wCfg1 wStA).philo = wStA.philo ∧
    check_all_philosophers_satisfied wSimOne = (wSimOne, false) := by
  have h := single_philosopher_meal_record_frame wEnvTrue 1 1 1 wCfg1 wStA
    wSimOne ⟨1, 0, 0, 0, 0⟩ 60 (by decide) (by decide) (by decide) (by decide)
    (by decide)
  exact ⟨h.2.1, h.2.2.1⟩

/-! ### Trace-safety lemmas for the lifecycle (C5) -/

theorem hasTrueCheck_append (a b : List Event) :
    hasTrueCheck (a ++ b) = (hasTrueCheck a || hasTrueCheck b) := by
  induction a with
  | nil => simp [hasTrueCheck]
  | cons e rest ih =>
    cases e with
    | checkFlag bb =>
      cases bb
      · simpa [hasTrueCheck] using ih
      · simp [hasTrueCheck]
    | _ => simpa [hasTrueCheck] using ih

theorem noPhaseAfterTrue_append (a b : List Event) :
    noPhaseAfterTrue (a ++ b) = true ↔
      (noPhaseAfterTrue a = true ∧ noPhaseAfterTrue b = true ∧
        (hasTrueCheck a = true →
          b.all (fun e => !isPhaseStatus e) = true)) := by
  induction a with
  | nil => simp [noPhaseAfterTrue, hasTrueCheck]
  | cons e rest ih =>
    cases e with
    | checkFlag bb =>
      cases bb
      · exact ih
      · show ((rest ++ b).all (fun e => !isPhaseStatus e) &&
            noPhaseAfterTrue (rest ++ b)) = true ↔
          ((rest.all (fun e => !isPhaseStatus e) &&
            noPhaseAfterTrue rest) = true ∧ noPhaseAfterTrue b = true ∧
            (true = true → (b.all fun e => !isPhaseStatus e) = true))
        simp only [Bool.and_eq_true, List.all_append, ih]
        tauto
    | lock i => exact ih
    | unlock i => exact ih
    | status id msg => exact ih
    | lockData => exact ih
    | unlockData => exact ih
    | sleep us => exact ih
    | joinThread i => exact ih
    | destroyFork i => exact ih
    | destroyPrint => exact ih
    | destroyData => exact ih

theorem hasTrue_block (evs A : List Event) (hA : hasTrueCheck A = false) :
    hasTrueCheck (evs ++ A) = hasTrueCheck evs := by
  rw [hasTrueCheck_append, hA, Bool.or_false]

theorem safeSt_append_block (env : Env) (st : St) (A : List Event)
    (h : safeSt env st)
    (hA1 : noPhaseAfterTrue A = true)
    (hA2 : hasTrueCheck A = false)
    (hA3 : A.all (fun e => !isPhaseStatus e) = true ∨
      hasTrueCheck st.events = false) :
    safeSt env { st with events := st.events ++ A } := by
  obtain ⟨hP, hT⟩ := h
  refine ⟨?_, ?_⟩
  · show noPhaseAfterTrue (st.events ++ A) = true
    rw [noPhaseAfterTrue_append]
    refine ⟨hP, hA1, ?_⟩
    intro htr
    rcases hA3 with hA3 | hA3
    · exact hA3
    · rw [hA3] at htr
      cases htr
  · show hasTrueCheck (st.events ++ A) = true → ∀ k, st.fi ≤ k →
      env.flag k = true
    rw [hasTrue_block _ _ hA2]
    exact hT

theorem safe_lockFork (env : Env) (i : Nat) (st : St) (h : safeSt env st) :
    safeSt env (lockFork i st) :=
  safeSt_append_block env st [Event.lock i] h rfl rfl (Or.inl rfl)

theorem safe_unlockFork (env : Env) (i : Nat) (st : St) (h : safeSt env st) :
    safeSt env (unlockFork i st) :=
  safeSt_append_block env st [Event.unlock i] h rfl rfl (Or.inl rfl)

theorem safe_lockData (env : Env) (st : St) (h : safeSt env st) :
    safeSt env (lockData st) :=
  safeSt_append_block env st [Event.lockData] h rfl rfl (Or.inl rfl)

theorem safe_unlockData (env : Env) (st : St) (h : safeSt env st) :
    safeSt env (unlockData st) :=
  safeSt_append_block env st [Event.unlockData] h rfl rfl (Or.inl rfl)

theorem safe_usleepEv (env : Env) (us : Int) (st : St) (h : safeSt env st) :
    safeSt env (usleepEv us st) :=
  safeSt_append_block env st [Event.sleep us] h rfl rfl (Or.inl rfl)

theorem safe_emitStatus_noTrue (env : Env) (m : String) (st : St)
    (h : safeSt env st) (hnt : hasTrueCheck st.events = false) :
    safeSt env (emitStatus m st) :=
  safeSt_append_block env st [Event.status st.philo.id m] h rfl rfl
    (Or.inr hnt)

theorem safe_gct (env : Env) (st : St) (h : safeSt env st) :
    safeSt env (get_current_time_ms env st).2 := h

theorem safe_set_last_meal_time (env : Env) (t : Int) (st : St)
    (h : safeSt env st) : safeSt env (set_last_meal_time t st) := h

theorem safe_increment_meals_eaten (env : Env) (st : St)
    (h : safeSt env st) : safeSt env (increment_meals_eaten st) := h

theorem safe_release_forks (env : Env) (st : St) (h : safeSt env st) :
    safeSt env (release_forks st) :=
  safe_unlockFork env _ _ (safe_unlockFork env _ _ h)

theorem safe_acquire_forks (env : Env) (st : St) (h : safeSt env st) :
    safeSt env (acquire_forks st) := by
  unfold acquire_forks
  split_ifs <;> exact safeSt_append_block env st _ h rfl rfl (Or.inl rfl)

theorem acquire_forks_noTrue (st : St)
    (hnt : hasTrueCheck st.events = false) :
    hasTrueCheck (acquire_forks st).events = false := by
  have : ∃ A, (acquire_forks st).events = st.events ++ A ∧
      hasTrueCheck A = false := by
    unfold acquire_forks
    split_ifs <;> exact ⟨_, rfl, rfl⟩
  obtain ⟨A, hA, hAf⟩ := this
  rw [hA, hasTrue_block _ _ hAf]
  exact hnt

theorem safe_check (env : Env) (st : St) (hm : flagMono env)
    (h : safeSt env st) :
    safeSt env (is_simulation_finished env st).2 ∧
      ((is_simulation_finished env st).1 = false →
        hasTrueCheck ((is_simulation_finished env st).2).events = false) := by
  obtain ⟨hP, hT⟩ := h
  constructor
  · refine ⟨?_, ?_⟩
    · show noPhaseAfterTrue
        (st.events ++ [Event.checkFlag (env.flag st.fi)]) = true
      rw [noPhaseAfterTrue_append]
      refine ⟨hP, ?_, ?_⟩
      · cases env.flag st.fi <;> rfl
      · intro _
        cases env.flag st.fi <;> rfl
    · show hasTrueCheck
          (st.events ++ [Event.checkFlag (env.flag st.fi)]) = true →
        ∀ k, st.fi + 1 ≤ k → env.flag k = true
      rw [hasTrueCheck_append]
      intro htr k hk
      cases hor : hasTrueCheck st.events with
      | true => exact hT hor k (by omega)
      | false =>
        rw [hor, Bool.false_or] at htr
        have hb : env.flag st.fi = true := by
          cases hb2 : env.flag st.fi
          · rw [hb2] at htr
            cases htr
          · rfl
        exact hm st.fi k (by omega) hb
  · intro hfalse
    have hb : env.flag st.fi = false := hfalse
    show hasTrueCheck
        (st.events ++ [Event.checkFlag (env.flag st.fi)]) = false
    rw [hb, hasTrueCheck_append]
    have hor : hasTrueCheck st.events = false := by
      cases hor2 : hasTrueCheck st.events
      · rfl
      · exact absurd (hT hor2 st.fi (le_refl _)) (by rw [hb]; exact fun hc => by cases hc)
    rw [hor]
    rfl

theorem safe_spendLoop (env : Env) (fuel : Nat) (start dur : Int)
    (hm : flagMono env) :
    ∀ st, safeSt env st → safeSt env (spendLoop env fuel start dur st) := by
  induction fuel with
  | zero => intro st h; exact h
  | succ fuel ih =>
    intro st h
    simp only [spendLoop]
    split
    · exact (safe_check env st hm h).1
    · split
      · exact safe_gct env _ ((safe_check env st hm h).1)
      · exact ih _ (safe_usleepEv env _ _
          (safe_gct env _ ((safe_check env st hm h).1)))

theorem safe_philo_spend_time (env : Env) (fuel : Nat) (dur : Int)
    (st : St) (hm : flagMono env) (h : safeSt env st) :
    safeSt env (philo_spend_time env fuel dur st) :=
  safe_spendLoop env fuel (env.time st.ti) dur hm _ (safe_gct env st h)

theorem safe_philosopher_eat (env : Env) (fuel : Nat) (cfg : SimCfg)
    (st : St) (hm : flagMono env) (h : safeSt env st)
    (hnt : hasTrueCheck st.events = false) :
    safeSt env (philosopher_eat env fuel cfg st) := by
  by_cases h1 : cfg.philosopher_count = 1
  · simp only [philosopher_eat, if_pos h1]
    apply safe_unlockFork
    apply safe_philo_spend_time _ _ _ _ hm
    apply safe_emitStatus_noTrue
    · exact safe_lockFork env _ _ h
    · show hasTrueCheck
        (st.events ++ [Event.lock st.philo.left_fork_index]) = false
      rw [hasTrue_block st.events [Event.lock st.philo.left_fork_index] rfl]
      exact hnt
  · simp only [philosopher_eat, if_neg h1]
    apply safe_release_forks
    apply safe_philo_spend_time _ _ _ _ hm
    apply safe_unlockData
    apply safe_increment_meals_eaten
    apply safe_set_last_meal_time
    apply safe_gct
    apply safe_lockData
    apply safe_emitStatus_noTrue
    · exact safe_acquire_forks env _ h
    · exact acquire_forks_noTrue st hnt

theorem safe_lifecycleLoop (env : Env) (cycles sfuel : Nat) (cfg : SimCfg)
    (hm : flagMono env) :
    ∀ st, safeSt env st →
      safeSt env (lifecycleLoop env cycles sfuel cfg st) := by
  induction cycles with
  | zero => intro st h; exact h
  | succ cycles ih =>
    intro st h
    simp only [lifecycleLoop]
    split
    · exact (safe_check env st hm h).1
    · rename_i hflag1
      have hf1 : (is_simulation_finished env st).1 = false :=
        Bool.not_eq_true _ ▸ (by simpa using hflag1)
      have hsafe1 := (safe_check env st hm h).1
      have hnt1 := (safe_check env st hm h).2 hf1
      have hsafe2 := safe_philosopher_eat env sfuel cfg _ hm hsafe1 hnt1
      split
      · exact (safe_check env _ hm hsafe2).1
      · rename_i hflag2
        have hsafe3 := (safe_check env _ hm hsafe2).1
        have hnt2 := (safe_check env _ hm hsafe2).2 (by simpa using hflag2)
        have hsafe4 := safe_emitStatus_noTrue env "is sleeping" _ hsafe3 hnt2
        have hsafe5 := safe_philo_spend_time env sfuel cfg.time_to_sleep _
          hm hsafe4
        split
        · exact (safe_check env _ hm hsafe5).1
        · rename_i hflag3
          have hsafe6 := (safe_check env _ hm hsafe5).1
          have hnt3 := (safe_check env _ hm hsafe5).2 (by simpa using hflag3)
          have hsafe7 := safe_emitStatus_noTrue env "is thinking" _ hsafe6
            hnt3
          split
          · exact ih _ (safe_usleepEv env 100 _ hsafe7)
          · exact ih _ hsafe7

/-- C5: an actor never begins a new phase after observing termination.
Under the latching of the termination flag (its observations are
monotone, see C6), the whole lifecycle trace of an actor satisfies
`noPhaseAfterTrue`: after any flag read that returned `true` — the loop
reads the flag before each eat phase and immediately after the eat and
sleep phases, and the responsive waits read it every iteration — no
further "is eating", "is sleeping" or "is thinking" emission occurs, and
the loop exits. -/
theorem lifecycle_no_phase_after_termination (env : Env)
    (cycles sfuel : Nat) (cfg : SimCfg) (p : Philo) (fi ti : Nat)
    (hm : ∀ i j : Nat, i ≤ j → env.flag i = true → env.flag j = true) :
    noPhaseAfterTrue
      (philosopher_lifecycle env cycles sfuel cfg ⟨fi, ti, p, []⟩).events =
      true := by
  have hm' : flagMono env := hm
  have h0 : safeSt env (⟨fi, ti, p, []⟩ : St) :=
    ⟨rfl, fun htr => absurd htr (by exact fun hc => by cases hc)⟩
  simp only [philosopher_lifecycle]
  refine (safe_lifecycleLoop env cycles sfuel cfg hm' _ ?_).1
  split
  · exact safe_usleepEv env _ _ h0
  · exact h0

/-- Witness for C5: a concrete two-cycle run of philosopher 1 under the
monotone environment `wEnvLate` (flag turns true at its third read)
produces a trace with no phase emission after the first positive check. -/
theorem lifecycle_no_phase_after_termination_witness :
    noPhaseAfterTrue
      (philosopher_lifecycle wEnvLate 2 2 wCfg ⟨0, 0, wPhilo, []⟩).events =
      true := by
  apply lifecycle_no_phase_after_termination
  intro i j hij hi
  simp only [wEnvLate, decide_eq_true_eq] at hi ⊢
  omega
